import Mathlib

/-!
Verification of the aq-telemetry streaming dashboard service.

Strings from the Rust source are modelled as `List Char`; Rust `f64`
values are idealised as rationals (`ℚ`); machine integers (`i32`, `i64`)
as `Int`; fallible queries as `Except`.  Each section embeds one
component of the source:

* `format_name`          — `src/domain/aquarium.rs`
* `prepare_query`        — `src/infrastructure/config.rs`
* `extract_tag_value`, `is_probe_available`, `build_skeleton`
                         — `src/application/streaming_service.rs`
* `downsample_points`    — `src/infrastructure/influx_repository.rs`
* `serialize_chunk`      — `src/infrastructure/chunked_thrift.rs`
* the `SvcStep` machine  — the channel/task structure of
                           `StreamingDashboardService::stream_dashboard`
-/

namespace AqTelemetry

/-! ### Characters that appear in query text -/

/-- The double-quote character. -/
def dqc : Char := Char.ofNat 34

/-- The single-quote character. -/
def sqc : Char := Char.ofNat 39

/-- The opening curly-brace character. -/
def lbrace : Char := Char.ofNat 123

/-- The closing curly-brace character. -/
def rbrace : Char := Char.ofNat 125

/-! ### `Aquarium::format_name` (src/domain/aquarium.rs)

Rust: `id.trim_end_matches('_').replace('_', " ")`.
`trim_end_matches` removes *every* trailing occurrence of the pattern;
`replace('_', " ")` maps each underscore to a space. -/

/-- Embedding of `Aquarium::format_name`: drop all trailing underscores
(`trim_end_matches('_')`), then replace each remaining underscore with a
space (`replace('_', " ")`). -/
def format_name (id : List Char) : List Char :=
  ((id.reverse.dropWhile (fun c => c == '_')).reverse).map
    (fun c => if c == '_' then ' ' else c)

/-- The transformation described by the claim's words: trim *exactly one*
trailing underscore (if present), then replace remaining underscores with
spaces.  Stated from the spec for comparison with `format_name`. -/
def format_name_claimed (id : List Char) : List Char :=
  (if id.getLast? = some '_' then id.dropLast else id).map
    (fun c => if c == '_' then ' ' else c)

/-- Spec-level reformulation of "drop all trailing underscores", written
as a fold rather than reverse/dropWhile/reverse. -/
def trimTrailingUnderscores (id : List Char) : List Char :=
  id.foldr (fun c acc => if acc.isEmpty && c == '_' then [] else c :: acc) []

/-- The amended claim's transformation: trim *all* trailing underscores,
then replace each remaining underscore with a space. -/
def format_name_amended (id : List Char) : List Char :=
  (trimTrailingUnderscores id).map (fun c => if c == '_' then ' ' else c)

theorem reverse_dropWhile_reverse (p : Char → Bool) (l : List Char) :
    (l.reverse.dropWhile p).reverse
      = l.foldr (fun c acc => if acc.isEmpty && p c then [] else c :: acc) [] := by
  induction l with
  | nil => rfl
  | cons c l ih =>
    rw [List.foldr_cons, ← ih, List.reverse_cons, List.dropWhile_append]
    by_cases h : l.reverse.dropWhile p = []
    · rw [h]
      cases hp : p c <;> simp [List.dropWhile_cons, hp]
    · have h1 : (l.reverse.dropWhile p).isEmpty = false := by
        simpa [List.isEmpty_iff] using h
      have h2 : (l.reverse.dropWhile p).reverse.isEmpty = false := by
        simp [List.isEmpty_iff, h]
      rw [h1]
      simp [h2, List.reverse_append]

/-! ### `prepare_query` (src/infrastructure/config.rs)

Rust: for each `(key, value)` in the variable map,
`result = result.replace(&format!("${{{}}}", key), value)`. -/

/-- A `${key}` placeholder, as built by `format!("${{{}}}", key)`. -/
def placeholderOf (key : List Char) : List Char :=
  '$' :: lbrace :: key ++ [rbrace]

/-- Fuel-indexed worker for `str::replace`: scan left to right, and at
each position where `pat` is a prefix emit `val` and skip past the
match; otherwise keep the character.  The fuel equals the remaining
length at every call from `replaceL`, so the `0, s => s` branch is never
taken there. -/
def replaceAux (pat val : List Char) : Nat → List Char → List Char
  | _, [] => []
  | 0, s => s
  | fuel + 1, c :: rest =>
    if pat <+: (c :: rest) then
      val ++ replaceAux pat val fuel (List.drop (pat.length - 1) rest)
    else
      c :: replaceAux pat val fuel rest

/-- Embedding of Rust `str::replace(pat, val)` on character lists. -/
def replaceL (pat val s : List Char) : List Char :=
  replaceAux pat val s.length s

/-- Embedding of `prepare_query`: fold the variable map over the query,
replacing every `${key}` occurrence with the key's value.  The Rust map
is a `HashMap`; the embedding fixes an iteration order as a list. -/
def prepare_query (query : List Char) (vars : List (List Char × List Char)) : List Char :=
  vars.foldl (fun result kv => replaceL (placeholderOf kv.1) kv.2 result) query

/-- `true` iff `pat` occurs (as a contiguous run) somewhere in `s`. -/
def hasOccur (pat : List Char) : List Char → Bool
  | [] => false
  | c :: rest => decide (pat <+: (c :: rest)) || hasOccur pat rest

theorem replaceAux_no_occur (pat val : List Char) :
    ∀ fuel s, hasOccur pat s = false → replaceAux pat val fuel s = s := by
  intro fuel
  induction fuel with
  | zero =>
    intro s _
    cases s with
    | nil => rfl
    | cons c rest => rfl
  | succ n ih =>
    intro s h
    cases s with
    | nil => rfl
    | cons c rest =>
      simp only [hasOccur, Bool.or_eq_false_iff, decide_eq_false_iff_not] at h
      rw [replaceAux, if_neg h.1, ih rest h.2]

theorem replaceL_no_occur (pat val s : List Char) (h : hasOccur pat s = false) :
    replaceL pat val s = s :=
  replaceAux_no_occur pat val s.length s h

/-! ### Claim C9 -/

/-- C9 counterexample: the claim says the display name is obtained by
trimming *exactly one* trailing underscore; the code
(`trim_end_matches('_')`) trims *all* trailing underscores.  On the
input `"a__"` the code yields `"a"` while the claimed transformation
yields `"a "`. -/
theorem format_name_claim_counterexample :
    format_name ("a__".toList) = "a".toList ∧
    format_name_claimed ("a__".toList) = "a ".toList ∧
    format_name ("a__".toList) ≠ format_name_claimed ("a__".toList) := by
  decide

/-- C9 (amended): the derived display name is obtained by trimming *all*
trailing underscores and then replacing every remaining underscore with
a space; in particular `"Great_Barrier_"` maps to `"Great Barrier"` and
`"Planet_72"` maps to `"Planet 72"`. -/
theorem format_name_amended_spec :
    format_name ("Great_Barrier_".toList) = "Great Barrier".toList ∧
    format_name ("Planet_72".toList) = "Planet 72".toList ∧
    ∀ id : List Char, format_name id = format_name_amended id := by
  refine ⟨by decide, by decide, ?_⟩
  intro id
  unfold format_name format_name_amended trimTrailingUnderscores
  rw [reverse_dropWhile_reverse]

/-! ### Claim C7 -/

/-- The `source` variable key used by `prepare_tile_query`. -/
def srcKey : List Char := "source".toList

/-- The `hours` variable key used by `prepare_tile_query`. -/
def hoursKey : List Char := "hours".toList

/-- A one-letter key `h`, used to show absence of partial-token
collisions with `hours`. -/
def hKey : List Char := "h".toList

/-- The template of the claim's example:
`host='${source}' AND time >= now() - ${hours}h`. -/
def exTemplate : List Char :=
  "host=".toList ++ [sqc] ++ placeholderOf srcKey ++ [sqc]
    ++ " AND time >= now() - ".toList ++ placeholderOf hoursKey ++ "h".toList

/-- The expected resolution of `exTemplate` with
`source = reef, hours = 12`. -/
def exResolved : List Char :=
  "host=".toList ++ [sqc] ++ "reef".toList ++ [sqc]
    ++ " AND time >= now() - 12h".toList

/-- C7: the resolver replaces every `${key}` occurrence with the key's
value; a key `h` in the map does not disturb the substitution of
`${hours}` (no partial-token collision); placeholders whose key is not
in the map are left verbatim; and the claim's concrete example resolves
as stated. -/
theorem prepare_query_spec :
    prepare_query exTemplate [(srcKey, "reef".toList), (hoursKey, "12".toList)]
        = exResolved ∧
    (∀ v : List Char,
        prepare_query exTemplate [(hKey, v), (hoursKey, "12".toList)]
          = prepare_query exTemplate [(hoursKey, "12".toList)]) ∧
    prepare_query (placeholderOf ("unknown".toList)) [(srcKey, "reef".toList)]
      = placeholderOf ("unknown".toList) := by
  refine ⟨by decide, ?_, by decide⟩
  intro v
  simp only [prepare_query, List.foldl_cons, List.foldl_nil]
  rw [replaceL_no_occur (placeholderOf hKey) v exTemplate (by decide)]

/-! ### Probe availability filter (src/application/streaming_service.rs)

`extract_tag_value` scans the query for `"tag"='value'` and returns the
text between the first such pattern and the next single quote;
`is_probe_available` implements the decision table over the known probe
set (a `HashSet<ProbeMetadata>`, modelled as a list with membership). -/

/-- A probe descriptor: identity is the `(probe_type, name)` pair. -/
structure ProbeMetadata where
  probe_type : List Char
  name : List Char
deriving DecidableEq

/-- The `probe_type` tag name. -/
def probeTypeTag : List Char := "probe_type".toList

/-- The `name` tag name. -/
def nameTag : List Char := "name".toList

/-- Index of the first occurrence of `pat` in `s` (Rust `str::find`). -/
def findPat (pat : List Char) : List Char → Option Nat
  | [] => if pat.isEmpty then some 0 else none
  | c :: rest =>
    if pat <+: (c :: rest) then some 0 else (findPat pat rest).map (· + 1)

/-- Embedding of `extract_tag_value`: find `"tag"='`, then return the
text up to the next `'`; `none` when either search fails. -/
def extract_tag_value (query tag_name : List Char) : Option (List Char) :=
  let pattern := dqc :: tag_name ++ [dqc, '=', sqc]
  match findPat pattern query with
  | none => none
  | some start =>
    let rest := query.drop (start + pattern.length)
    match rest.findIdx? (fun c => c == sqc) with
    | some endIdx => some (rest.take endIdx)
    | none => none

/-- Embedding of `is_probe_available`: both tags extractable → exact
membership; only `probe_type` → any descriptor of that type; no
`probe_type` → fail open. -/
def is_probe_available (query : List Char) (avail : List ProbeMetadata) : Bool :=
  match extract_tag_value query probeTypeTag, extract_tag_value query nameTag with
  | some pt, some n => decide (ProbeMetadata.mk pt n ∈ avail)
  | some pt, none => avail.any (fun p => decide (p.probe_type = pt))
  | _, _ => true

/-! ### Claim C2 -/

/-- C2: the availability filter follows the decision table: with both a
`probe_type` and a `name` extractable the widget is available iff the
exact descriptor is in the known set; with only a `probe_type`, iff some
descriptor of that type is in the set; with no extractable `probe_type`
the result is unconditionally `true` (fail-open). -/
theorem is_probe_available_decision (q : List Char) (probes : List ProbeMetadata) :
    (∀ pt n, extract_tag_value q probeTypeTag = some pt →
        extract_tag_value q nameTag = some n →
        (is_probe_available q probes = true ↔ ProbeMetadata.mk pt n ∈ probes)) ∧
    (∀ pt, extract_tag_value q probeTypeTag = some pt →
        extract_tag_value q nameTag = none →
        (is_probe_available q probes = true ↔ ∃ p ∈ probes, p.probe_type = pt)) ∧
    (extract_tag_value q probeTypeTag = none → is_probe_available q probes = true) := by
  refine ⟨?_, ?_, ?_⟩
  · intro pt n hpt hn
    simp [is_probe_available, hpt, hn]
  · intro pt hpt hn
    simp [is_probe_available, hpt, hn, List.any_eq_true]
  · intro hpt
    cases hn : extract_tag_value q nameTag <;> simp [is_probe_available, hpt, hn]

/-- A concrete query carrying both tags:
`SELECT last(value) FROM apex_probe WHERE "probe_type"='temp' AND "name"='Tmp'`. -/
def exQuery : List Char :=
  "SELECT last(value) FROM apex_probe WHERE ".toList
    ++ [dqc] ++ probeTypeTag ++ [dqc, '=', sqc] ++ "temp".toList ++ [sqc]
    ++ " AND ".toList
    ++ [dqc] ++ nameTag ++ [dqc, '=', sqc] ++ "Tmp".toList ++ [sqc]

/-- The descriptor named by `exQuery`. -/
def exProbe : ProbeMetadata := ⟨"temp".toList, "Tmp".toList⟩

theorem is_probe_available_decision_witness :
    is_probe_available exQuery [exProbe] = true ↔ exProbe ∈ [exProbe] :=
  (is_probe_available_decision exQuery [exProbe]).1
    ("temp".toList) ("Tmp".toList) (by decide) (by decide)

/-- Against an empty probe set, availability reduces to the fail-open
test: a widget is kept iff no `probe_type` is extractable. -/
theorem is_probe_available_empty (q : List Char) :
    is_probe_available q [] = (extract_tag_value q probeTypeTag).isNone := by
  cases hpt : extract_tag_value q probeTypeTag <;>
    cases hn : extract_tag_value q nameTag <;>
      simp [is_probe_available, hpt, hn]

/-! ### Downsampler (src/infrastructure/influx_repository.rs)

`downsample_points`: when the list exceeds `max_points`, partition it
into buckets of `ceil(len / max_points)` consecutive elements
(`step_by` chunks) and emit one point per bucket — the middle element's
timestamp and the bucket's mean value.  Rust `f64` values are idealised
as rationals. -/

/-- A time-series point (`TimeSeriesPoint` in src/domain/telemetry.rs). -/
structure TimeSeriesPoint where
  time_ms : Int
  value : ℚ
deriving DecidableEq

/-- Ceiling division on naturals:
`(len as f64 / max as f64).ceil() as usize` for positive arguments. -/
def ceilDivNat (a b : Nat) : Nat := (a + b - 1) / b

/-- Fuel-indexed chunking: split a list into consecutive runs of `b`
elements (the final run may be shorter).  The fuel equals the list
length at the call in `chunksOf`, which suffices whenever `0 < b`. -/
def chunksOfAux {α : Type} (b : Nat) : Nat → List α → List (List α)
  | _, [] => []
  | 0, l => [l]
  | fuel + 1, l => l.take b :: chunksOfAux b fuel (l.drop b)

/-- The bucket partition made by `for chunk_start in (0..len).step_by(b)`. -/
def chunksOf {α : Type} (b : Nat) (l : List α) : List (List α) :=
  chunksOfAux b l.length l

/-- The point emitted for one bucket: the timestamp of the element at
index `len / 2` and the arithmetic mean of the bucket's values. -/
def midMean (c : List TimeSeriesPoint) : TimeSeriesPoint :=
  { time_ms := (c.getD (c.length / 2) ⟨0, 0⟩).time_ms
    value := (c.map TimeSeriesPoint.value).sum / (c.length : ℚ) }

/-- Embedding of `InfluxRepository::downsample_points` (including the
early return of `query_time_series_downsampled` for small inputs). -/
def downsample_points (points : List TimeSeriesPoint) (max_points : Nat) :
    List TimeSeriesPoint :=
  if points = [] ∨ points.length ≤ max_points then points
  else
    (chunksOf (ceilDivNat points.length max_points) points).filterMap
      (fun chunk => if chunk = [] then none else some (midMean chunk))

theorem ceilDivNat_pos (a c : Nat) (ha : 0 < a) (hc : 0 < c) :
    0 < ceilDivNat a c := by
  unfold ceilDivNat
  have h := (Nat.le_div_iff_mul_le hc).mpr (by omega : 1 * c ≤ a + c - 1)
  omega

theorem le_mul_ceilDivNat (a m : Nat) (hm : 0 < m) :
    a ≤ m * ceilDivNat a m := by
  unfold ceilDivNat
  have h1 := Nat.div_add_mod (a + m - 1) m
  have h2 : (a + m - 1) % m < m := Nat.mod_lt _ hm
  set Q := m * ((a + m - 1) / m) with hQ
  omega

theorem ceilDivNat_le_of_le_mul (a m c : Nat) (hc : 0 < c) (h : a ≤ m * c) :
    ceilDivNat a c ≤ m := by
  unfold ceilDivNat
  have h1 : a + c - 1 < (m + 1) * c := by
    have he : (m + 1) * c = m * c + c := by ring
    rw [he]
    set P := m * c with hP
    omega
  have h2 := (Nat.div_lt_iff_lt_mul hc).mpr h1
  omega

theorem ceilDivNat_sub_add (b len : Nat) (hb : 0 < b) (hlen : 0 < len) :
    ceilDivNat (len - b) b + 1 = ceilDivNat len b := by
  by_cases h : len ≤ b
  · have h0 : len - b = 0 := by omega
    rw [h0]
    unfold ceilDivNat
    rw [Nat.div_eq_of_lt (by omega),
      @Nat.div_eq_of_lt_le 1 b (len + b - 1) (by omega) (by omega)]
  · unfold ceilDivNat
    have h2 : len - b + b - 1 = len - 1 := by omega
    have h3 : len + b - 1 = (len - 1) + b := by omega
    rw [h2, h3, Nat.add_div_right _ hb]

theorem chunksOfAux_nil {α : Type} (b fuel : Nat) :
    chunksOfAux (α := α) b fuel [] = [] := by
  cases fuel <;> rfl

theorem chunksOfAux_flatten {α : Type} (b : Nat) (hb : 0 < b) :
    ∀ fuel (l : List α), l.length ≤ fuel → (chunksOfAux b fuel l).flatten = l := by
  intro fuel
  induction fuel with
  | zero =>
    intro l hl
    have : l = [] := List.length_eq_zero.mp (Nat.le_zero.mp hl)
    subst this
    rfl
  | succ n ih =>
    intro l hl
    cases l with
    | nil => rfl
    | cons c rest =>
      show ((c :: rest).take b :: chunksOfAux b n ((c :: rest).drop b)).flatten
          = c :: rest
      rw [List.flatten_cons, ih ((c :: rest).drop b) ?_]
      · exact List.take_append_drop b (c :: rest)
      · rw [List.length_drop]
        simp only [List.length_cons] at hl ⊢
        omega

theorem chunksOfAux_length {α : Type} (b : Nat) (hb : 0 < b) :
    ∀ fuel (l : List α), l.length ≤ fuel →
      (chunksOfAux b fuel l).length = ceilDivNat l.length b := by
  intro fuel
  induction fuel with
  | zero =>
    intro l hl
    have : l = [] := List.length_eq_zero.mp (Nat.le_zero.mp hl)
    subst this
    show 0 = (0 + b - 1) / b
    rw [Nat.div_eq_of_lt (by omega)]
  | succ n ih =>
    intro l hl
    cases l with
    | nil =>
      show 0 = (0 + b - 1) / b
      rw [Nat.div_eq_of_lt (by omega)]
    | cons c rest =>
      show ((c :: rest).take b :: chunksOfAux b n ((c :: rest).drop b)).length
          = ceilDivNat (c :: rest).length b
      rw [List.length_cons, ih ((c :: rest).drop b) ?_]
      · rw [List.length_drop]
        exact ceilDivNat_sub_add b (c :: rest).length hb (by simp)
      · rw [List.length_drop]
        simp only [List.length_cons] at hl ⊢
        omega

theorem chunksOfAux_mem {α : Type} (b : Nat) (hb : 0 < b) :
    ∀ fuel (l : List α), l.length ≤ fuel →
      ∀ c ∈ chunksOfAux b fuel l, c ≠ [] ∧ c.length ≤ b := by
  intro fuel
  induction fuel with
  | zero =>
    intro l hl
    have : l = [] := List.length_eq_zero.mp (Nat.le_zero.mp hl)
    subst this
    simp [chunksOfAux]
  | succ n ih =>
    intro l hl
    cases l with
    | nil => simp [chunksOfAux]
    | cons c0 rest =>
      intro c hc
      rw [show chunksOfAux b (n + 1) (c0 :: rest)
          = (c0 :: rest).take b :: chunksOfAux b n ((c0 :: rest).drop b) from rfl] at hc
      rcases List.mem_cons.mp hc with h | h
      · subst h
        constructor
        · rw [Ne, List.take_eq_nil_iff]
          rintro (h0 | h0)
          · omega
          · exact List.noConfusion h0
        · rw [List.length_take]
          omega
      · refine ih ((c0 :: rest).drop b) ?_ c h
        rw [List.length_drop]
        simp only [List.length_cons] at hl ⊢
        omega

theorem chunksOfAux_dropLast {α : Type} (b : Nat) (hb : 0 < b) :
    ∀ fuel (l : List α), l.length ≤ fuel →
      ∀ c ∈ (chunksOfAux b fuel l).dropLast, c.length = b := by
  intro fuel
  induction fuel with
  | zero =>
    intro l hl
    have : l = [] := List.length_eq_zero.mp (Nat.le_zero.mp hl)
    subst this
    simp [chunksOfAux]
  | succ n ih =>
    intro l hl
    cases l with
    | nil => simp [chunksOfAux]
    | cons c0 rest =>
      rw [show chunksOfAux b (n + 1) (c0 :: rest)
          = (c0 :: rest).take b :: chunksOfAux b n ((c0 :: rest).drop b) from rfl]
      have hlen : ((c0 :: rest).drop b).length ≤ n := by
        rw [List.length_drop]
        simp only [List.length_cons] at hl ⊢
        omega
      by_cases ht : chunksOfAux b n ((c0 :: rest).drop b) = []
      · rw [ht]
        simp
      · rw [List.dropLast_cons_of_ne_nil ht]
        intro c hc
        rcases List.mem_cons.mp hc with h | h
        · subst h
          have hd : (c0 :: rest).drop b ≠ [] := by
            intro h0
            rw [h0, chunksOfAux_nil] at ht
            exact ht rfl
          have : b < (c0 :: rest).length := by
            by_contra hle
            exact hd (List.drop_eq_nil_of_le (by omega))
          rw [List.length_take]
          omega
        · exact ih ((c0 :: rest).drop b) hlen c h

theorem chunksOf_flatten {α : Type} (b : Nat) (hb : 0 < b) (l : List α) :
    (chunksOf b l).flatten = l :=
  chunksOfAux_flatten b hb l.length l le_rfl

theorem chunksOf_length {α : Type} (b : Nat) (hb : 0 < b) (l : List α) :
    (chunksOf b l).length = ceilDivNat l.length b :=
  chunksOfAux_length b hb l.length l le_rfl

theorem chunksOf_mem {α : Type} (b : Nat) (hb : 0 < b) (l : List α) :
    ∀ c ∈ chunksOf b l, c ≠ [] ∧ c.length ≤ b :=
  chunksOfAux_mem b hb l.length l le_rfl

theorem chunksOf_dropLast {α : Type} (b : Nat) (hb : 0 < b) (l : List α) :
    ∀ c ∈ (chunksOf b l).dropLast, c.length = b :=
  chunksOfAux_dropLast b hb l.length l le_rfl

theorem midMean_spec (c : List TimeSeriesPoint) (hc : c ≠ []) :
    ∃ h : c.length / 2 < c.length,
      (midMean c).time_ms = (c.get ⟨c.length / 2, h⟩).time_ms ∧
      (midMean c).value = (c.map TimeSeriesPoint.value).sum / (c.length : ℚ) := by
  have hlen : 0 < c.length := List.length_pos.mpr hc
  have h : c.length / 2 < c.length := Nat.div_lt_self hlen (by omega)
  refine ⟨h, ?_, rfl⟩
  unfold midMean
  simp [List.getD_eq_getElem?_getD, List.getElem?_eq_getElem h]

theorem filterMap_midMean (L : List (List TimeSeriesPoint))
    (h : ∀ c ∈ L, c ≠ []) :
    (L.filterMap fun c => if c = [] then none else some (midMean c))
      = L.map midMean := by
  induction L with
  | nil => rfl
  | cons c L ih =>
    have hc : ¬(c = []) := h c (List.mem_cons_self c L)
    simp only [List.filterMap_cons, if_neg hc, List.map_cons]
    rw [ih (fun x hx => h x (List.mem_cons_of_mem c hx))]

/-! ### Claim C1 -/

/-- The full downsampling contract for a point list and bound `M`: small
inputs pass through unchanged; large inputs are partitioned into
consecutive non-overlapping buckets of `ceil(N/M)` elements (the final
bucket possibly shorter, none empty) and each bucket is collapsed to one
point carrying the middle element's timestamp and the bucket's mean
value, giving `ceil(N/ceil(N/M)) ≤ M` output points. -/
def DownsampleSpec (points : List TimeSeriesPoint) (M : Nat) : Prop :=
  (points.length ≤ M → downsample_points points M = points) ∧
  (M < points.length →
    downsample_points points M
        = (chunksOf (ceilDivNat points.length M) points).map midMean ∧
    (chunksOf (ceilDivNat points.length M) points).flatten = points ∧
    (∀ c ∈ chunksOf (ceilDivNat points.length M) points,
        c ≠ [] ∧ c.length ≤ ceilDivNat points.length M) ∧
    (∀ c ∈ (chunksOf (ceilDivNat points.length M) points).dropLast,
        c.length = ceilDivNat points.length M) ∧
    (∀ c ∈ chunksOf (ceilDivNat points.length M) points,
        ∃ h : c.length / 2 < c.length,
          (midMean c).time_ms = (c.get ⟨c.length / 2, h⟩).time_ms ∧
          (midMean c).value
            = (c.map TimeSeriesPoint.value).sum / (c.length : ℚ)) ∧
    (downsample_points points M).length
        = ceilDivNat points.length (ceilDivNat points.length M) ∧
    (downsample_points points M).length ≤ M)

/-- C1: the downsampler returns inputs of length `≤ M` unchanged and
otherwise partitions the input into consecutive non-overlapping buckets
of `ceil(N/M)` elements (last bucket possibly shorter), emitting per
bucket one point with the middle element's timestamp (index
`⌊len/2⌋`) and the bucket's arithmetic-mean value, so the output has
`ceil(N/ceil(N/M)) ≤ M` points. -/
theorem downsample_points_spec (points : List TimeSeriesPoint) (M : Nat)
    (hM : 0 < M) : DownsampleSpec points M := by
  constructor
  · intro hle
    unfold downsample_points
    rw [if_pos (Or.inr hle)]
  · intro hlt
    have hne : points ≠ [] := by
      intro h
      rw [h] at hlt
      simp at hlt
    have hbs : 0 < ceilDivNat points.length M :=
      ceilDivNat_pos points.length M (List.length_pos.mpr hne) hM
    have hchunk := chunksOf_mem (ceilDivNat points.length M) hbs points
    have hcond : ¬(points = [] ∨ points.length ≤ M) := by
      rintro (h | h)
      · exact hne h
      · omega
    have hmap : downsample_points points M
        = (chunksOf (ceilDivNat points.length M) points).map midMean := by
      unfold downsample_points
      rw [if_neg hcond]
      exact filterMap_midMean _ (fun c hc => (hchunk c hc).1)
    refine ⟨hmap, chunksOf_flatten _ hbs points, hchunk,
      chunksOf_dropLast _ hbs points, ?_, ?_, ?_⟩
    · intro c hc
      exact midMean_spec c (hchunk c hc).1
    · rw [hmap, List.length_map, chunksOf_length _ hbs]
    · rw [hmap, List.length_map, chunksOf_length _ hbs]
      exact ceilDivNat_le_of_le_mul points.length M (ceilDivNat points.length M)
        hbs (le_mul_ceilDivNat points.length M hM)

/-- Five concrete points for evaluating the downsampler. -/
def pts5 : List TimeSeriesPoint := [⟨0, 1⟩, ⟨1, 2⟩, ⟨2, 3⟩, ⟨3, 4⟩, ⟨4, 5⟩]

theorem downsample_points_spec_witness : 0 < 2 ∧ DownsampleSpec pts5 2 :=
  ⟨by decide, downsample_points_spec pts5 2 (by decide)⟩

/-! ### Widget catalog and skeleton (src/infrastructure/config.rs,
src/application/streaming_service.rs) -/

/-- `TileConfig` from src/infrastructure/config.rs. -/
structure TileConfig where
  id : List Char
  title : List Char
  unit : List Char
  precision : Int
  query : List Char
deriving DecidableEq

/-- `SeriesConfig` from src/infrastructure/config.rs. -/
structure SeriesConfig where
  id : List Char
  name : List Char
  color : Option (List Char)
  query : List Char
deriving DecidableEq

/-- `OverlayConfig` from src/infrastructure/config.rs (unused by the
streaming service). -/
structure OverlayConfig where
  id : List Char
  name : List Char
  color : Option (List Char)
  query : List Char
deriving DecidableEq

/-- `ChartConfig` from src/infrastructure/config.rs. -/
structure ChartConfig where
  id : List Char
  title : List Char
  unit : Option (List Char)
  kind : List Char
  y_min : Option ℚ
  y_max : Option ℚ
  fraction_digits : Option Int
  series : List SeriesConfig
  overlays : List OverlayConfig
deriving DecidableEq

/-- `WidgetsConfig` from src/infrastructure/config.rs. -/
structure WidgetsConfig where
  tiles : List TileConfig
  charts : List ChartConfig
deriving DecidableEq

/-- Thrift `ChartKind` (LINE / MULTILINE). -/
inductive ChartKind where
  | LINE
  | MULTILINE
deriving DecidableEq

/-- Thrift `TileSkeleton`. -/
structure TileSkeleton where
  id : List Char
  title : List Char
  unit : List Char
  precision : Int
deriving DecidableEq

/-- Thrift `SeriesSkeleton`. -/
structure SeriesSkeleton where
  id : List Char
  name : List Char
  color : Option (List Char)
deriving DecidableEq

/-- Thrift `ChartSkeleton`. -/
structure ChartSkeleton where
  id : List Char
  title : List Char
  unit : Option (List Char)
  kind : ChartKind
  y_min : Option ℚ
  y_max : Option ℚ
  fraction_digits : Option Int
  series : List SeriesSkeleton
deriving DecidableEq

/-- Thrift `DashboardSkeleton`. -/
structure DashboardSkeleton where
  aquarium_id : List Char
  tiles : List TileSkeleton
  charts : List ChartSkeleton
deriving DecidableEq

/-- The `TileSkeleton` built from a tile config in `build_skeleton`. -/
def tileSkeletonOf (t : TileConfig) : TileSkeleton :=
  ⟨t.id, t.title, t.unit, t.precision⟩

/-- The `SeriesSkeleton` built from a series config in `build_skeleton`. -/
def seriesSkeletonOf (s : SeriesConfig) : SeriesSkeleton :=
  ⟨s.id, s.name, s.color⟩

/-- The chart-kind mapping in `build_skeleton`: `"line"` maps to `LINE`,
anything else to `MULTILINE`. -/
def chartKindOf (k : List Char) : ChartKind :=
  if k = "line".toList then ChartKind.LINE else ChartKind.MULTILINE

/-- Embedding of `StreamingDashboardService::build_skeleton`: filter the
tiles and each chart's series through the availability filter; drop a
chart whose filtered series list is empty. -/
def build_skeleton (cfg : WidgetsConfig) (aquarium_id : List Char)
    (probes : List ProbeMetadata) : DashboardSkeleton :=
  { aquarium_id := aquarium_id
    tiles := (cfg.tiles.filter
        (fun t => is_probe_available t.query probes)).map tileSkeletonOf
    charts := cfg.charts.filterMap (fun c =>
      if ((c.series.filter
          (fun s => is_probe_available s.query probes)).map seriesSkeletonOf).isEmpty
      then none
      else some ⟨c.id, c.title, c.unit, chartKindOf c.kind,
        c.y_min, c.y_max, c.fraction_digits,
        (c.series.filter
          (fun s => is_probe_available s.query probes)).map seriesSkeletonOf⟩) }

/-- The tile configs for which `stream_dashboard` spawns a query task
(step 2 of `stream_dashboard`: skip tiles failing the filter). -/
def dispatchedTiles (cfg : WidgetsConfig) (probes : List ProbeMetadata) :
    List TileConfig :=
  cfg.tiles.filter (fun t => is_probe_available t.query probes)

/-- The (chart id, series config) pairs for which `stream_dashboard`
spawns a chart-series query task (step 3: skip series failing the
filter). -/
def dispatchedSeries (cfg : WidgetsConfig) (probes : List ProbeMetadata) :
    List (List Char × SeriesConfig) :=
  (cfg.charts.map (fun c =>
    (c.series.filter (fun s => is_probe_available s.query probes)).map
      (fun s => (c.id, s)))).flatten

/-! ### Claim C3 -/

theorem skeleton_series_pairs_aux (probes : List ProbeMetadata)
    (L : List ChartConfig) :
    ((L.filterMap (fun c =>
        if ((c.series.filter
            (fun s => is_probe_available s.query probes)).map seriesSkeletonOf).isEmpty
        then none
        else some (⟨c.id, c.title, c.unit, chartKindOf c.kind,
          c.y_min, c.y_max, c.fraction_digits,
          (c.series.filter
            (fun s => is_probe_available s.query probes)).map seriesSkeletonOf⟩
          : ChartSkeleton))).map
      (fun cs => cs.series.map (fun ss => (cs.id, ss)))).flatten
    = ((L.map (fun c =>
        (c.series.filter (fun s => is_probe_available s.query probes)).map
          (fun s => (c.id, s)))).flatten).map
        (fun p => (p.1, seriesSkeletonOf p.2)) := by
  induction L with
  | nil => rfl
  | cons c L ih =>
    rw [List.filterMap_cons, List.map_cons, List.flatten_cons, List.map_append]
    cases h : ((c.series.filter
        (fun s => is_probe_available s.query probes)).map seriesSkeletonOf).isEmpty with
    | true =>
      have h0 : c.series.filter (fun s => is_probe_available s.query probes) = [] :=
        List.map_eq_nil_iff.mp (List.isEmpty_iff.mp h)
      simp only [h, if_true, h0, List.map_nil, List.nil_append]
      exact ih
    | false =>
      simp only [h, Bool.false_eq_true, if_false, List.map_cons, List.flatten_cons]
      rw [ih, List.map_map, List.map_map]
      rfl

/-- C3: the skeleton's widget set is exactly the availability-filtered
catalog, and the dispatch set coincides with it: the skeleton's tiles
are precisely the dispatched tiles, the skeleton's (chart id, series)
pairs are precisely the dispatched series tasks, a chart appears in the
skeleton only with a non-empty series list, and both dispatch sets are
the catalog filtered through `is_probe_available`. -/
theorem skeleton_dispatch_consistent (cfg : WidgetsConfig) (aq : List Char)
    (probes : List ProbeMetadata) :
    (build_skeleton cfg aq probes).tiles
        = (dispatchedTiles cfg probes).map tileSkeletonOf ∧
    dispatchedTiles cfg probes
        = cfg.tiles.filter (fun t => is_probe_available t.query probes) ∧
    ((build_skeleton cfg aq probes).charts.map
        (fun cs => cs.series.map (fun ss => (cs.id, ss)))).flatten
        = (dispatchedSeries cfg probes).map
            (fun p => (p.1, seriesSkeletonOf p.2)) ∧
    dispatchedSeries cfg probes
        = (cfg.charts.map (fun c =>
            (c.series.filter (fun s => is_probe_available s.query probes)).map
              (fun s => (c.id, s)))).flatten ∧
    (∀ cs ∈ (build_skeleton cfg aq probes).charts, cs.series ≠ []) := by
  refine ⟨rfl, rfl, skeleton_series_pairs_aux probes cfg.charts, rfl, ?_⟩
  intro cs hcs
  rcases List.mem_filterMap.mp hcs with ⟨c, _, hc⟩
  cases h : ((c.series.filter
      (fun s => is_probe_available s.query probes)).map seriesSkeletonOf).isEmpty with
  | true =>
    rw [h, if_pos rfl] at hc
    exact absurd hc (by simp)
  | false =>
    rw [h] at hc
    simp only [Bool.false_eq_true, if_false, Option.some_inj] at hc
    subst hc
    show ((c.series.filter
        (fun s => is_probe_available s.query probes)).map seriesSkeletonOf) ≠ []
    intro h0
    rw [h0] at h
    simp at h

/-! ### Stream messages and per-widget tasks
(src/application/streaming_service.rs) -/

/-- Thrift `SDPoint`. -/
structure SDPoint where
  time_ms : Int
  value : ℚ
deriving DecidableEq

/-- Thrift `SeriesUpdate`: one series id with its points. -/
structure SeriesUpdate where
  series_id : List Char
  points : List SDPoint
deriving DecidableEq

/-- The tagged union `StreamMessage`; exactly one payload per variant. -/
inductive StreamMessage where
  | skeleton (sk : DashboardSkeleton)
  | tileUpdate (tile_id : List Char) (value : ℚ)
  | chartUpdate (chart_id : List Char) (series : List SeriesUpdate)
  | complete (total_widgets : Int) (duration_ms : Int)
deriving DecidableEq

/-- Query failures (`anyhow::Error`), abstracted as a message string. -/
abbrev QueryError := List Char

/-- The `SDPoint` built from a `TimeSeriesPoint` in the chart task. -/
def sdPointOf (p : TimeSeriesPoint) : SDPoint := ⟨p.time_ms, p.value⟩

/-- The messages emitted by one spawned tile task
(`if let Ok(Some(value)) = repo.query_single_value(&query)`): one
`TileUpdate` on a present value, nothing on `None` or error. -/
def tileTask (tile_id : List Char) (result : Except QueryError (Option ℚ)) :
    List StreamMessage :=
  match result with
  | .ok (some value) => [.tileUpdate tile_id value]
  | _ => []

/-- The messages emitted by one spawned chart-series task
(`if let Ok(points) = repo.query_time_series_downsampled(...)` followed
by `if !points.is_empty()`): one `ChartUpdate` carrying exactly one
series on a non-empty result, nothing on an empty result or error. -/
def chartSeriesTask (chart_id series_id : List Char)
    (result : Except QueryError (List TimeSeriesPoint)) : List StreamMessage :=
  match result with
  | .ok points =>
    if points.isEmpty then []
    else [.chartUpdate chart_id [⟨series_id, points.map sdPointOf⟩]]
  | .error _ => []

/-! ### Claim C5 -/

/-- C5: a tile task emits a message iff its query returns `Ok(Some v)`,
and then exactly one `TileUpdate` with that value; errors and empty
results emit nothing.  A chart-series task emits a message iff its query
returns `Ok` with a non-empty point list, and then exactly one
`ChartUpdate` carrying exactly one series with those points; errors and
empty results emit nothing. -/
theorem widget_task_emission (tid cid sid : List Char)
    (r : Except QueryError (Option ℚ))
    (rs : Except QueryError (List TimeSeriesPoint)) :
    (tileTask tid r ≠ [] ↔ ∃ v, r = .ok (some v)) ∧
    (∀ v, r = .ok (some v) → tileTask tid r = [.tileUpdate tid v]) ∧
    (∀ e, r = .error e → tileTask tid r = []) ∧
    (r = .ok none → tileTask tid r = []) ∧
    (chartSeriesTask cid sid rs ≠ [] ↔ ∃ pts, rs = .ok pts ∧ pts ≠ []) ∧
    (∀ pts, rs = .ok pts → pts ≠ [] →
        chartSeriesTask cid sid rs
          = [.chartUpdate cid [⟨sid, pts.map sdPointOf⟩]]) ∧
    (∀ pts, rs = .ok pts → pts = [] → chartSeriesTask cid sid rs = []) ∧
    (∀ e, rs = .error e → chartSeriesTask cid sid rs = []) := by
  refine ⟨?_, ?_, ?_, ?_, ?_, ?_, ?_, ?_⟩
  · constructor
    · intro h
      match r with
      | .ok (some v) => exact ⟨v, rfl⟩
      | .ok none => exact absurd rfl h
      | .error e => exact absurd rfl h
    · rintro ⟨v, rfl⟩
      simp [tileTask]
  · rintro v rfl
    rfl
  · rintro e rfl
    rfl
  · rintro rfl
    rfl
  · constructor
    · intro h
      match rs with
      | .ok pts =>
        refine ⟨pts, rfl, ?_⟩
        intro h0
        rw [h0] at h
        exact h rfl
      | .error e => exact absurd rfl h
    · rintro ⟨pts, rfl, hne⟩
      simp [chartSeriesTask, List.isEmpty_iff, hne]
  · rintro pts rfl hne
    simp [chartSeriesTask, List.isEmpty_iff, hne]
  · rintro pts rfl rfl
    rfl
  · rintro e rfl
    rfl

/-! ### Frame encoder (src/infrastructure/chunked_thrift.rs)

`serialize_chunk`: serialize one message with the Thrift binary
protocol, optionally Brotli-compress the payload, and prepend a 4-byte
big-endian length.  The serializer and compressor live in external
crates and are abstract parameters of the embedding. -/

/-- The 4-byte big-endian encoding written by `put_u32`. -/
def be32 (n : Nat) : List Nat :=
  [n / 16777216 % 256, n / 65536 % 256, n / 256 % 256, n % 256]

/-- Big-endian decoding of a byte list (a conforming reader's view). -/
def fromBe32 (l : List Nat) : Nat :=
  l.foldl (fun acc b => acc * 256 + b) 0

/-- Embedding of `serialize_chunk`: `payload` is the serialized message,
Brotli-compressed iff `compress`; the frame is
`put_u32(payload.len() as u32)` followed by the payload bytes.  `ser`
and `brotli` abstract the Thrift serializer and the Brotli encoder. -/
def serialize_chunk (ser : StreamMessage → List Nat)
    (brotli : List Nat → List Nat) (compress : Bool)
    (msg : StreamMessage) : List Nat :=
  be32 ((if compress then brotli (ser msg) else ser msg).length % 4294967296)
    ++ (if compress then brotli (ser msg) else ser msg)

/-- The response headers set by `chunked_thrift_stream`: content type
and transfer encoding only — never `content-encoding`. -/
def responseHeaders : List (List Char × List Char) :=
  [("content-type".toList, "application/x-thrift".toList),
   ("transfer-encoding".toList, "chunked".toList)]

theorem fromBe32_be32 (n : Nat) (h : n < 4294967296) : fromBe32 (be32 n) = n := by
  unfold be32 fromBe32
  simp only [List.foldl]
  omega

/-! ### Claim C6 -/

/-- C6: each encoded frame is a 4-byte big-endian length prefix followed
by exactly that many payload bytes, where the payload is the one
message's binary serialization, Brotli-compressed iff compression was
negotiated; the prefix itself is never compressed (it is plain `be32` of
the payload length), and the streaming response's headers never include
`content-encoding`. -/
theorem serialize_chunk_frame_format (ser : StreamMessage → List Nat)
    (brotli : List Nat → List Nat) (compress : Bool) (msg : StreamMessage) :
    ((serialize_chunk ser brotli compress msg).take 4
        = be32 ((if compress then brotli (ser msg) else ser msg).length
            % 4294967296)) ∧
    ((serialize_chunk ser brotli compress msg).drop 4
        = (if compress then brotli (ser msg) else ser msg)) ∧
    (compress = true →
        (serialize_chunk ser brotli compress msg).drop 4 = brotli (ser msg)) ∧
    (compress = false →
        (serialize_chunk ser brotli compress msg).drop 4 = ser msg) ∧
    ((if compress then brotli (ser msg) else ser msg).length < 4294967296 →
        fromBe32 ((serialize_chunk ser brotli compress msg).take 4)
            = ((serialize_chunk ser brotli compress msg).drop 4).length ∧
        (serialize_chunk ser brotli compress msg).length
            = 4 + fromBe32 ((serialize_chunk ser brotli compress msg).take 4)) ∧
    (∀ hdr ∈ responseHeaders, hdr.1 ≠ "content-encoding".toList) := by
  have hlen : (be32 ((if compress then brotli (ser msg) else ser msg).length
      % 4294967296)).length = 4 := rfl
  have htake : (serialize_chunk ser brotli compress msg).take 4
      = be32 ((if compress then brotli (ser msg) else ser msg).length
          % 4294967296) := by
    unfold serialize_chunk
    rw [List.take_append_of_le_length (by rw [hlen])]
    rw [← hlen]
    exact List.take_length _
  have hdrop : (serialize_chunk ser brotli compress msg).drop 4
      = (if compress then brotli (ser msg) else ser msg) := by
    unfold serialize_chunk
    rw [show (4 : Nat) = (be32 ((if compress then brotli (ser msg)
        else ser msg).length % 4294967296)).length from rfl]
    exact List.drop_left _ _
  refine ⟨htake, hdrop, ?_, ?_, ?_, ?_⟩
  · intro hc
    rw [hdrop, hc, if_pos rfl]
  · intro hc
    rw [hdrop, hc]
    rfl
  · intro hsmall
    have hmod : (if compress then brotli (ser msg) else ser msg).length
        % 4294967296
        = (if compress then brotli (ser msg) else ser msg).length :=
      Nat.mod_eq_of_lt hsmall
    constructor
    · rw [htake, hdrop, hmod, fromBe32_be32 _ hsmall]
    · rw [htake, hmod, fromBe32_be32 _ hsmall]
      unfold serialize_chunk
      rw [List.length_append, hlen]
  · intro hdr hmem
    fin_cases hmem <;> decide

/-! ### Operational model of `stream_dashboard`

The body of `stream_dashboard` is straight-line: it sends the skeleton
on the `mpsc` channel, then spawns one task per dispatched widget plus
the completion task, then returns the receiver.  Spawned tasks run
concurrently and each appends its messages to the channel in any
interleaving.  `SvcState` records the main body's program counter, the
pending output of every spawned task, and the channel content (the
receiver observes the channel in FIFO order). -/

/-- A state of the streaming request: `pc = 0` before the skeleton send,
`pc = k + 1` after the skeleton send and `k` spawns; `running` holds the
not-yet-delivered output of each spawned task; `chan` is the message
sequence sent so far. -/
structure SvcState where
  pc : Nat
  running : List (List StreamMessage)
  chan : List StreamMessage

/-- One scheduler step, given the skeleton message `sk` and the spawned
tasks' outputs `T` (in spawn order): the main body sends the skeleton
(only at `pc = 0`), the main body spawns the next task, or any spawned
task delivers its next message. -/
inductive SvcStep (sk : StreamMessage) (T : List (List StreamMessage)) :
    SvcState → SvcState → Prop where
  | send_skeleton (r : List (List StreamMessage)) (c : List StreamMessage) :
      SvcStep sk T ⟨0, r, c⟩ ⟨1, r, c ++ [sk]⟩
  | spawn (k : Nat) (r : List (List StreamMessage)) (c : List StreamMessage)
      (h : k < T.length) :
      SvcStep sk T ⟨k + 1, r, c⟩ ⟨k + 2, r ++ [T.get ⟨k, h⟩], c⟩
  | task_send (pc : Nat) (r₁ r₂ : List (List StreamMessage))
      (m : StreamMessage) (rest : List StreamMessage) (c : List StreamMessage) :
      SvcStep sk T ⟨pc, r₁ ++ (m :: rest) :: r₂, c⟩
        ⟨pc, r₁ ++ rest :: r₂, c ++ [m]⟩

/-- The state at request start: nothing sent, nothing spawned. -/
def initState : SvcState := ⟨0, [], []⟩

/-- Reachability from the request-start state. -/
def Reaches (sk : StreamMessage) (T : List (List StreamMessage))
    (s : SvcState) : Prop :=
  Relation.ReflTransGen (SvcStep sk T) initState s

/-- A finished execution: every task spawned and every spawned task's
output delivered. -/
def Terminal (T : List (List StreamMessage)) (s : SvcState) : Prop :=
  s.pc = T.length + 1 ∧ ∀ l ∈ s.running, l = []

theorem headInv_reaches (sk : StreamMessage) (T : List (List StreamMessage))
    (s : SvcState) (h : Reaches sk T s) :
    (s.pc = 0 → s.chan = [] ∧ s.running = []) ∧
    (1 ≤ s.pc → s.chan.head? = some sk) := by
  induction h with
  | refl =>
    refine ⟨fun _ => ⟨rfl, rfl⟩, fun h0 => ?_⟩
    simp [initState] at h0
  | tail _ hstep ih =>
    cases hstep with
    | send_skeleton r c =>
      dsimp only at ih ⊢
      obtain ⟨hc, _⟩ := ih.1 rfl
      subst hc
      exact ⟨fun h0 => absurd h0 (by omega), fun _ => rfl⟩
    | spawn k r c hk =>
      dsimp only at ih ⊢
      exact ⟨fun h0 => absurd h0 (by omega), fun _ => ih.2 (by omega)⟩
    | task_send pc r₁ r₂ m rest c =>
      dsimp only at ih ⊢
      have hpc : 1 ≤ pc := by
        by_contra h0
        have h1 := (ih.1 (by omega)).2
        simp at h1
      have hh := ih.2 hpc
      refine ⟨fun h0 => ?_, fun _ => ?_⟩
      · have h1 := (ih.1 h0).2
        simp at h1
      · cases c with
        | nil => simp at hh
        | cons x xs =>
          simp only [List.head?_cons, Option.some_inj] at hh
          show ((x :: xs) ++ [m]).head? = some sk
          simpa using hh

theorem countInv_reaches (sk : StreamMessage) (T : List (List StreamMessage))
    (p : StreamMessage → Bool) (s : SvcState) (h : Reaches sk T s) :
    s.chan.countP p + (s.running.map (fun l => l.countP p)).sum
      = (if 1 ≤ s.pc then (if p sk then 1 else 0) else 0)
        + ((T.take (s.pc - 1)).map (fun l => l.countP p)).sum := by
  induction h with
  | refl => simp [initState]
  | tail _ hstep ih =>
    cases hstep with
    | send_skeleton r c =>
      dsimp only at ih ⊢
      rw [if_neg (by omega)] at ih
      rw [if_pos (by omega)]
      simp only [Nat.zero_sub, Nat.sub_self, List.take_zero, List.map_nil,
        List.sum_nil, List.countP_append, List.countP_cons,
        List.countP_nil] at ih ⊢
      omega
    | spawn k r c hk =>
      dsimp only at ih ⊢
      rw [if_pos (by omega)] at ih
      rw [if_pos (by omega)]
      have ht : T.take (k + 2 - 1) = T.take (k + 1 - 1) ++ [T.get ⟨k, hk⟩] := by
        show T.take (k + 1) = T.take k ++ [T.get ⟨k, hk⟩]
        rw [List.take_succ, List.getElem?_eq_getElem hk]
        simp
      rw [ht]
      simp only [List.map_append, List.sum_append, List.map_cons, List.map_nil,
        List.sum_cons, List.sum_nil] at ih ⊢
      omega
    | task_send pc r₁ r₂ m rest c =>
      dsimp only at ih ⊢
      simp only [List.countP_append, List.countP_cons, List.countP_nil,
        List.map_append, List.sum_append, List.map_cons,
        List.sum_cons] at ih ⊢
      omega

theorem memInv_reaches (sk : StreamMessage) (T : List (List StreamMessage))
    (s : SvcState) (h : Reaches sk T s) :
    (∀ l ∈ s.running, ∃ t ∈ T, l <:+ t) ∧
    (∀ m ∈ s.chan, m = sk ∨ ∃ t ∈ T, m ∈ t) := by
  induction h with
  | refl =>
    constructor <;> intro x hx <;> exact absurd hx (List.not_mem_nil x)
  | tail _ hstep ih =>
    cases hstep with
    | send_skeleton r c =>
      refine ⟨ih.1, ?_⟩
      intro m hm
      rcases List.mem_append.mp hm with h1 | h1
      · exact ih.2 m h1
      · left
        simpa using h1
    | spawn k r c hk =>
      refine ⟨?_, ih.2⟩
      intro l hl
      rcases List.mem_append.mp hl with h1 | h1
      · exact ih.1 l h1
      · have h2 : l = T.get ⟨k, hk⟩ := by simpa using h1
        subst h2
        exact ⟨T.get ⟨k, hk⟩, List.get_mem T k hk, List.suffix_refl _⟩
    | task_send pc r₁ r₂ m rest c =>
      have hmem : (m :: rest) ∈ r₁ ++ (m :: rest) :: r₂ :=
        List.mem_append.mpr (Or.inr (List.mem_cons_self _ _))
      obtain ⟨t, htT, hsuf⟩ := ih.1 _ hmem
      refine ⟨?_, ?_⟩
      · intro l hl
        rcases List.mem_append.mp hl with h1 | h1
        · exact ih.1 l (List.mem_append.mpr (Or.inl h1))
        · rcases List.mem_cons.mp h1 with h2 | h2
          · refine ⟨t, htT, ?_⟩
            rw [h2]
            exact (List.suffix_cons m rest).trans hsuf
          · exact ih.1 l
              (List.mem_append.mpr (Or.inr (List.mem_cons_of_mem _ h2)))
      · intro x hx
        rcases List.mem_append.mp hx with h1 | h1
        · exact ih.2 x h1
        · have h2 : x = m := by simpa using h1
          refine Or.inr ⟨t, htT, ?_⟩
          rw [h2]
          exact hsuf.subset (List.mem_cons_self m rest)

theorem terminal_countP (sk : StreamMessage) (T : List (List StreamMessage))
    (p : StreamMessage → Bool) (s : SvcState) (hr : Reaches sk T s)
    (ht : Terminal T s) :
    s.chan.countP p
      = (if p sk then 1 else 0) + (T.map (fun l => l.countP p)).sum := by
  have h := countInv_reaches sk T p s hr
  rw [ht.1, if_pos (by omega), Nat.add_sub_cancel, List.take_length] at h
  have hz : (s.running.map (fun l => l.countP p)).sum = 0 := by
    apply List.sum_eq_zero
    intro x hx
    rcases List.mem_map.mp hx with ⟨l, hl, rfl⟩
    rw [ht.2 l hl]
    rfl
  cases hp : p sk <;> simp [hp] at h ⊢ <;> omega

/-! ### The instantiated request model -/

/-- `true` for every message other than a Skeleton. -/
def isDataMsg : StreamMessage → Bool
  | .skeleton _ => false
  | _ => true

/-- `true` exactly for Complete messages. -/
def isCompleteMsg : StreamMessage → Bool
  | .complete _ _ => true
  | _ => false

/-- The Skeleton message sent at step 1 of `stream_dashboard`. -/
def skeletonMsg (cfg : WidgetsConfig) (aq : List Char)
    (probes : List ProbeMetadata) : StreamMessage :=
  .skeleton (build_skeleton cfg aq probes)

/-- `total_widgets`: skeleton tile count plus skeleton chart count. -/
def totalWidgets (cfg : WidgetsConfig) (aq : List Char)
    (probes : List ProbeMetadata) : Int :=
  ((build_skeleton cfg aq probes).tiles.length : Int)
    + ((build_skeleton cfg aq probes).charts.length : Int)

/-- The completion task's fixed delay,
`tokio::time::sleep(Duration::from_secs(5))`. -/
def completionDelaySecs : Nat := 5

/-- The outputs of the tasks spawned by `stream_dashboard`, in spawn
order: one task per dispatched tile, one per dispatched chart series,
and last the completion task, which emits exactly one Complete message
carrying `total_widgets` and the elapsed milliseconds.  `tileRes` and
`seriesRes` give each task's query outcome; `duration_ms` the elapsed
wall time the completion task observes. -/
def taskOutputs (cfg : WidgetsConfig) (aq : List Char)
    (probes : List ProbeMetadata)
    (tileRes : TileConfig → Except QueryError (Option ℚ))
    (seriesRes : List Char → SeriesConfig →
      Except QueryError (List TimeSeriesPoint))
    (duration_ms : Int) : List (List StreamMessage) :=
  (dispatchedTiles cfg probes).map (fun t => tileTask t.id (tileRes t))
    ++ (dispatchedSeries cfg probes).map
        (fun pr => chartSeriesTask pr.1 pr.2.id (seriesRes pr.1 pr.2))
    ++ [[StreamMessage.complete (totalWidgets cfg aq probes) duration_ms]]

theorem countP_complete_tileTask (id : List Char)
    (r : Except QueryError (Option ℚ)) :
    (tileTask id r).countP isCompleteMsg = 0 := by
  cases r with
  | ok o => cases o <;> rfl
  | error e => rfl

theorem countP_complete_chartTask (cid sid : List Char)
    (rs : Except QueryError (List TimeSeriesPoint)) :
    (chartSeriesTask cid sid rs).countP isCompleteMsg = 0 := by
  cases rs with
  | ok pts => cases pts <;> rfl
  | error e => rfl

theorem mem_tileTask_not_complete (id : List Char)
    (r : Except QueryError (Option ℚ)) (m : StreamMessage)
    (hm : m ∈ tileTask id r) : isCompleteMsg m = false := by
  cases r with
  | ok o =>
    cases o with
    | none => exact absurd hm (List.not_mem_nil m)
    | some v =>
      have h : m = StreamMessage.tileUpdate id v := by
        simpa [tileTask] using hm
      rw [h]
      rfl
  | error e => exact absurd hm (List.not_mem_nil m)

theorem mem_chartTask_not_complete (cid sid : List Char)
    (rs : Except QueryError (List TimeSeriesPoint)) (m : StreamMessage)
    (hm : m ∈ chartSeriesTask cid sid rs) : isCompleteMsg m = false := by
  cases rs with
  | ok pts =>
    cases pts with
    | nil => exact absurd hm (List.not_mem_nil m)
    | cons p ps =>
      have h : m = StreamMessage.chartUpdate cid
          [⟨sid, (p :: ps).map sdPointOf⟩] := by
        simpa [chartSeriesTask] using hm
      rw [h]
      rfl
  | error e => exact absurd hm (List.not_mem_nil m)

theorem taskOutputs_complete_sum (cfg : WidgetsConfig) (aq : List Char)
    (probes : List ProbeMetadata)
    (tileRes : TileConfig → Except QueryError (Option ℚ))
    (seriesRes : List Char → SeriesConfig →
      Except QueryError (List TimeSeriesPoint))
    (dur : Int) :
    ((taskOutputs cfg aq probes tileRes seriesRes dur).map
        (fun l => l.countP isCompleteMsg)).sum = 1 := by
  unfold taskOutputs
  rw [List.map_append, List.sum_append, List.map_append, List.sum_append]
  have h1 : (((dispatchedTiles cfg probes).map
      (fun t => tileTask t.id (tileRes t))).map
        (fun l => l.countP isCompleteMsg)).sum = 0 := by
    apply List.sum_eq_zero
    intro x hx
    rcases List.mem_map.mp hx with ⟨l, hl, rfl⟩
    rcases List.mem_map.mp hl with ⟨t, _, rfl⟩
    exact countP_complete_tileTask t.id (tileRes t)
  have h2 : (((dispatchedSeries cfg probes).map
      (fun pr => chartSeriesTask pr.1 pr.2.id (seriesRes pr.1 pr.2))).map
        (fun l => l.countP isCompleteMsg)).sum = 0 := by
    apply List.sum_eq_zero
    intro x hx
    rcases List.mem_map.mp hx with ⟨l, hl, rfl⟩
    rcases List.mem_map.mp hl with ⟨pr, _, rfl⟩
    exact countP_complete_chartTask pr.1 pr.2.id (seriesRes pr.1 pr.2)
  rw [h1, h2]
  rfl

theorem terminal_complete_count (cfg : WidgetsConfig) (aq : List Char)
    (probes : List ProbeMetadata)
    (tileRes : TileConfig → Except QueryError (Option ℚ))
    (seriesRes : List Char → SeriesConfig →
      Except QueryError (List TimeSeriesPoint))
    (dur : Int) (s : SvcState)
    (hr : Reaches (skeletonMsg cfg aq probes)
        (taskOutputs cfg aq probes tileRes seriesRes dur) s)
    (ht : Terminal (taskOutputs cfg aq probes tileRes seriesRes dur) s) :
    s.chan.countP isCompleteMsg = 1 := by
  have h := terminal_countP _ _ isCompleteMsg s hr ht
  have h1 : isCompleteMsg (skeletonMsg cfg aq probes) = false := rfl
  rw [h1] at h
  simp only [Bool.false_eq_true, if_false, Nat.zero_add] at h
  rw [taskOutputs_complete_sum] at h
  exact h

/-! ### Claim C4 -/

/-- The structural-ordering property of one request state: before the
skeleton send nothing has been sent or spawned; whenever the channel is
non-empty its first message is the Skeleton; and every non-Skeleton
message sits at a strictly positive channel position. -/
def SkeletonFirstProp (sk : StreamMessage) (s : SvcState) : Prop :=
  (s.pc = 0 → s.chan = [] ∧ s.running = []) ∧
  (s.chan ≠ [] → s.chan.head? = some sk) ∧
  (∀ i m, getElem? s.chan i = some m → isDataMsg m = true → 0 < i)

/-- C4: in every reachable state of a request, the Skeleton is sent
before any task is spawned, it is the first message on the channel, and
every TileUpdate, ChartUpdate or Complete message occupies a strictly
later channel position — the consumer observes the Skeleton strictly
before any data message. -/
theorem skeleton_precedes_data (cfg : WidgetsConfig) (aq : List Char)
    (probes : List ProbeMetadata)
    (tileRes : TileConfig → Except QueryError (Option ℚ))
    (seriesRes : List Char → SeriesConfig →
      Except QueryError (List TimeSeriesPoint))
    (dur : Int) (s : SvcState)
    (h : Reaches (skeletonMsg cfg aq probes)
        (taskOutputs cfg aq probes tileRes seriesRes dur) s) :
    SkeletonFirstProp (skeletonMsg cfg aq probes) s := by
  have hinv := headInv_reaches _ _ s h
  refine ⟨hinv.1, ?_, ?_⟩
  · intro hne
    have hpc : 1 ≤ s.pc := by
      by_contra h0
      exact hne (hinv.1 (by omega)).1
    exact hinv.2 hpc
  · intro i m hm hdata
    by_contra h0
    have hi0 : i = 0 := by omega
    subst hi0
    have hne : s.chan ≠ [] := by
      intro h1
      rw [h1] at hm
      simp at hm
    have hpc : 1 ≤ s.pc := by
      by_contra h1
      exact hne (hinv.1 (by omega)).1
    have hhead := hinv.2 hpc
    cases hchan : s.chan with
    | nil => exact hne hchan
    | cons x xs =>
      rw [hchan] at hm hhead
      simp only [List.getElem?_cons_zero, Option.some_inj] at hm
      simp only [List.head?_cons, Option.some_inj] at hhead
      rw [← hm, hhead] at hdata
      exact Bool.noConfusion (show false = true from hdata)

/-! ### Claim C8 -/

/-- The completion contract of one finished request: the channel holds
exactly one Complete message, it carries `total_widgets` and the elapsed
duration, `total_widgets` is the skeleton's tile count plus chart count,
and the fence delay is the fixed 5 seconds. -/
def CompletionProp (cfg : WidgetsConfig) (aq : List Char)
    (probes : List ProbeMetadata) (dur : Int) (s : SvcState) : Prop :=
  s.chan.countP isCompleteMsg = 1 ∧
  (∀ m ∈ s.chan, isCompleteMsg m = true →
      m = StreamMessage.complete (totalWidgets cfg aq probes) dur) ∧
  totalWidgets cfg aq probes
    = ((build_skeleton cfg aq probes).tiles.length : Int)
      + ((build_skeleton cfg aq probes).charts.length : Int) ∧
  completionDelaySecs = 5

/-- C8: in every finished execution of a request the dedicated
completion task has emitted exactly one Complete message; that message
carries the total widget count — the number of tiles plus the number of
charts of the request's skeleton — and the elapsed duration in
milliseconds; and the fence delay is the fixed 5 seconds. -/
theorem completion_fence_spec (cfg : WidgetsConfig) (aq : List Char)
    (probes : List ProbeMetadata)
    (tileRes : TileConfig → Except QueryError (Option ℚ))
    (seriesRes : List Char → SeriesConfig →
      Except QueryError (List TimeSeriesPoint))
    (dur : Int) (s : SvcState)
    (hr : Reaches (skeletonMsg cfg aq probes)
        (taskOutputs cfg aq probes tileRes seriesRes dur) s)
    (ht : Terminal (taskOutputs cfg aq probes tileRes seriesRes dur) s) :
    CompletionProp cfg aq probes dur s := by
  refine ⟨terminal_complete_count cfg aq probes tileRes seriesRes dur s hr ht,
    ?_, rfl, rfl⟩
  intro m hm hc
  have hmem := (memInv_reaches _ _ s hr).2 m hm
  rcases hmem with h1 | ⟨t, htT, hmt⟩
  · rw [h1] at hc
    exact Bool.noConfusion (show false = true from hc)
  · rcases List.mem_append.mp htT with h2 | h3
    · rcases List.mem_append.mp h2 with h4 | h4
      · rcases List.mem_map.mp h4 with ⟨tl, _, rfl⟩
        rw [mem_tileTask_not_complete _ _ m hmt] at hc
        exact Bool.noConfusion hc
      · rcases List.mem_map.mp h4 with ⟨pr, _, rfl⟩
        rw [mem_chartTask_not_complete _ _ _ m hmt] at hc
        exact Bool.noConfusion hc
    · have h4 : t = [StreamMessage.complete
          (totalWidgets cfg aq probes) dur] := by
        simpa using h3
      rw [h4] at hmt
      simpa using hmt

/-! ### Claim C10 -/

/-- `unwrap_or_default` on the probe-metadata query result: an error
yields the empty probe set. -/
def probesFromResult (r : Except QueryError (List ProbeMetadata)) :
    List ProbeMetadata :=
  match r with
  | .ok l => l
  | .error _ => []

/-- The behaviour of a request whose probe-metadata fetch failed: the
probe set is empty, so exactly the widgets with an extractable
`probe_type` are excluded (fail-open widgets remain), and the request
still runs to completion — the Skeleton is still first and exactly one
Complete message is emitted, with no error message on the channel. -/
def MetadataFailureProp (e : QueryError) (cfg : WidgetsConfig)
    (aq : List Char)
    (tileRes : TileConfig → Except QueryError (Option ℚ))
    (seriesRes : List Char → SeriesConfig →
      Except QueryError (List TimeSeriesPoint))
    (dur : Int) : Prop :=
  probesFromResult (.error e) = [] ∧
  (∀ q pt, extract_tag_value q probeTypeTag = some pt →
      is_probe_available q (probesFromResult (.error e)) = false) ∧
  (∀ q, extract_tag_value q probeTypeTag = none →
      is_probe_available q (probesFromResult (.error e)) = true) ∧
  dispatchedTiles cfg (probesFromResult (.error e))
    = cfg.tiles.filter
        (fun t => (extract_tag_value t.query probeTypeTag).isNone) ∧
  dispatchedSeries cfg (probesFromResult (.error e))
    = (cfg.charts.map (fun c =>
        (c.series.filter
          (fun s => (extract_tag_value s.query probeTypeTag).isNone)).map
          (fun s => (c.id, s)))).flatten ∧
  (∀ s, Reaches (skeletonMsg cfg aq (probesFromResult (.error e)))
        (taskOutputs cfg aq (probesFromResult (.error e))
          tileRes seriesRes dur) s →
      Terminal (taskOutputs cfg aq (probesFromResult (.error e))
          tileRes seriesRes dur) s →
      s.chan.head? = some (skeletonMsg cfg aq (probesFromResult (.error e))) ∧
      s.chan.countP isCompleteMsg = 1)

/-- C10: a failed probe-metadata fetch is swallowed
(`unwrap_or_default`), the request proceeds against the empty probe set
— excluding every widget with an extractable `probe_type` and keeping
only fail-open widgets — and still emits its Skeleton first and exactly
one Complete message; the failure never aborts the stream and no error
message exists on the channel. -/
theorem metadata_failure_fail_open (e : QueryError) (cfg : WidgetsConfig)
    (aq : List Char)
    (tileRes : TileConfig → Except QueryError (Option ℚ))
    (seriesRes : List Char → SeriesConfig →
      Except QueryError (List TimeSeriesPoint))
    (dur : Int) :
    MetadataFailureProp e cfg aq tileRes seriesRes dur := by
  refine ⟨rfl, ?_, ?_, ?_, ?_, ?_⟩
  · intro q pt hpt
    rw [show probesFromResult (.error e) = [] from rfl,
      is_probe_available_empty, hpt]
    rfl
  · intro q hpt
    rw [show probesFromResult (.error e) = [] from rfl,
      is_probe_available_empty, hpt]
    rfl
  · unfold dispatchedTiles
    apply List.filter_congr
    intro t _
    exact is_probe_available_empty t.query
  · unfold dispatchedSeries
    congr 1
    apply List.map_congr_left
    intro c _
    congr 1
    apply List.filter_congr
    intro s _
    exact is_probe_available_empty s.query
  · intro s hr ht
    have hinv := headInv_reaches _ _ s hr
    have hpc : 1 ≤ s.pc := by
      rw [ht.1]
      omega
    exact ⟨hinv.2 hpc, terminal_complete_count _ _ _ _ _ _ s hr ht⟩

/-! ### Concrete runs for the operational claims -/

/-- A concrete aquarium id. -/
def exAq : List Char := "reef".toList

/-- An empty widget catalog, for a minimal concrete run. -/
def exCfg : WidgetsConfig := ⟨[], []⟩

/-- A query environment in which every tile query fails. -/
def exTileRes : TileConfig → Except QueryError (Option ℚ) :=
  fun _ => .error []

/-- A query environment in which every series query fails. -/
def exSeriesRes : List Char → SeriesConfig →
    Except QueryError (List TimeSeriesPoint) :=
  fun _ _ => .error []

/-- The state just after the skeleton send of the `exCfg` request. -/
def w4State : SvcState := ⟨1, [], [skeletonMsg exCfg exAq []]⟩

theorem skeleton_precedes_data_witness :
    Reaches (skeletonMsg exCfg exAq [])
        (taskOutputs exCfg exAq [] exTileRes exSeriesRes 0) w4State ∧
    SkeletonFirstProp (skeletonMsg exCfg exAq []) w4State :=
  ⟨Relation.ReflTransGen.single (SvcStep.send_skeleton [] []),
    skeleton_precedes_data exCfg exAq [] exTileRes exSeriesRes 0 w4State
      (Relation.ReflTransGen.single (SvcStep.send_skeleton [] []))⟩

/-- The Complete message of the `exCfg` request. -/
def exCm : StreamMessage := .complete (totalWidgets exCfg exAq []) 0

/-- The finished state of the `exCfg` request: skeleton sent, the one
(completion) task spawned and drained. -/
def w8State : SvcState := ⟨2, [[]], [skeletonMsg exCfg exAq [], exCm]⟩

theorem w8_reach :
    Reaches (skeletonMsg exCfg exAq [])
      (taskOutputs exCfg exAq [] exTileRes exSeriesRes 0) w8State :=
  ((Relation.ReflTransGen.single
      (SvcStep.send_skeleton [] [])).tail
    (SvcStep.spawn 0 [] [skeletonMsg exCfg exAq []] (by decide))).tail
    (SvcStep.task_send 2 [] [] exCm [] [skeletonMsg exCfg exAq []])

theorem w8_terminal :
    Terminal (taskOutputs exCfg exAq [] exTileRes exSeriesRes 0) w8State := by
  refine ⟨rfl, ?_⟩
  intro l hl
  simp only [w8State, List.mem_singleton] at hl
  exact hl

theorem completion_fence_spec_witness :
    Reaches (skeletonMsg exCfg exAq [])
        (taskOutputs exCfg exAq [] exTileRes exSeriesRes 0) w8State ∧
    Terminal (taskOutputs exCfg exAq [] exTileRes exSeriesRes 0) w8State ∧
    CompletionProp exCfg exAq [] 0 w8State :=
  ⟨w8_reach, w8_terminal,
    completion_fence_spec exCfg exAq [] exTileRes exSeriesRes 0 w8State
      w8_reach w8_terminal⟩

end AqTelemetry
